import Mathlib

/-!
Verification of the extraction/normalization core of the `cookpad_ingest`
repository (`cookpad_ingest/spiders/cookpad_vn.py` and `cookpad_ingest/utils.py`),
as a shallow embedding in Lean 4.

Strings are modelled as lists of characters (`Str`).  Python's `str.lower()`
is modelled on its ASCII fragment (`pyLowerChar`); every concrete input used
in a theorem below only contains characters on which the full Unicode lowering
and the ASCII fragment agree (upper-case ASCII letters, or characters that are
already lower case).
-/

namespace CookpadIngest

/-- Strings as character lists. -/
abbrev Str := List Char

/-- Coerce a Lean string literal to the `Str` model. -/
def str (s : String) : Str := s.data

/-! ## Character classes used by the Python source -/

/-- The non-breaking space replaced by `_normalize_whitespace` (`"\xa0"`). -/
def NBSP : Char := '\xA0'

/-- The horizontal-whitespace class of the regex `[ \t\r\f\v]` in
`_normalize_whitespace`. -/
def isHWS (c : Char) : Bool :=
  c = ' ' || c = '\t' || c = '\r' || c = '\x0C' || c = '\x0B'

/-- The newline class of the regex `\n{2,}` in `_normalize_whitespace`. -/
def isNL (c : Char) : Bool := c = '\n'

/-- Python's `str.strip()` whitespace class (Unicode whitespace). -/
def isPySpace (c : Char) : Bool :=
  isHWS c || c = '\n' || c = '\x1C' || c = '\x1D' || c = '\x1E' || c = '\x1F' ||
  c = '\x85' || c = NBSP || c.toNat = 0x1680 ||
  (0x2000 ≤ c.toNat && c.toNat ≤ 0x200A) ||
  c.toNat = 0x2028 || c.toNat = 0x2029 || c.toNat = 0x202F ||
  c.toNat = 0x205F || c.toNat = 0x3000

/-! ## Strip (Python `str.strip()`) -/

/-- Remove the leading run of characters satisfying `p` (left part of
Python `str.strip()`). -/
def lstrip (p : Char → Bool) : Str → Str
  | [] => []
  | c :: cs => if p c then lstrip p cs else c :: cs

/-- Remove the trailing run of characters satisfying `p` (right part of
Python `str.strip()`). -/
def rstrip (p : Char → Bool) : Str → Str
  | [] => []
  | c :: cs =>
    match rstrip p cs with
    | [] => if p c then [] else [c]
    | r => c :: r

/-- Python `s.strip()` on the model. -/
def pyStrip (s : Str) : Str := rstrip isPySpace (lstrip isPySpace s)

/-! ## Run collapsing (the two `re.sub` calls of `_normalize_whitespace`) -/

/-- Replace every maximal run of characters satisfying `p` by the single
character `rep`.  The boolean state records whether the previous input
character was part of a run.  `collapseRuns p rep` with `p` the horizontal
whitespace class and `rep` a space is `re.sub(r"[ \t\r\f\v]+", " ", s)`;
with `p c = (c = newline)` and `rep` a newline it is
`re.sub(r"\n{2,}", "\n", s)` (collapsing a one-element run to `rep` is the
identity there since the run consists of newlines already). -/
def collapseAux (p : Char → Bool) (rep : Char) : Bool → Str → Str
  | _, [] => []
  | inRun, c :: cs =>
    if p c then
      if inRun then collapseAux p rep true cs
      else rep :: collapseAux p rep true cs
    else c :: collapseAux p rep false cs

/-- Entry point of `collapseAux` (not inside a run). -/
def collapseRuns (p : Char → Bool) (rep : Char) (s : Str) : Str :=
  collapseAux p rep false s

/-- `_normalize_whitespace` of the spider:
`s.replace("\xa0", " ")`, then `re.sub(r"[ \t\r\f\v]+", " ", s)`,
then `re.sub(r"\n{2,}", "\n", s)`, then `s.strip()`. -/
def _normalize_whitespace (s : Str) : Str :=
  pyStrip (collapseRuns isNL '\n'
    (collapseRuns isHWS ' ' (s.map (fun c => if c = NBSP then ' ' else c))))

/-! ## `_clean_lines` of the spider -/

/-- The consecutive-duplicate removal loop of `_clean_lines`: `prev` starts as
`None` (`none`), each element different from `prev` is kept. -/
def dedupAdjAux : Option Str → List Str → List Str
  | _, [] => []
  | prev, s :: rest =>
    if some s = prev then dedupAdjAux (some s) rest
    else s :: dedupAdjAux (some s) rest

/-- Consecutive-duplicate removal with initial `prev = None`. -/
def dedupAdj (l : List Str) : List Str := dedupAdjAux none l

/-- `_clean_lines` of the spider.  A `none` entry models a Python `None`
(skipped by `if x is None: continue`); each remaining entry is normalized and
dropped when the result is empty; finally consecutive duplicates are removed.
(`str(x)` on the string entries the call sites supply is the identity.) -/
def _clean_lines (lines : List (Option Str)) : List Str :=
  dedupAdj (lines.filterMap (fun x =>
    match x with
    | none => none
    | some s =>
      let t := _normalize_whitespace s
      if t.isEmpty then none else some t))

/-- `_clean_lines` applied to a plain list of strings (every call site of the
spider passes lists of strings, never `None` entries mixed in at the Lean
type level). -/
def cleanStrs (l : List Str) : List Str := _clean_lines (l.map some)

/-! ## `_fingerprint` of the spider

`_fingerprint(name, ingredients, instructions)` builds
`"\n".join([name.strip().lower(), "\n".join(i.strip().lower() for i in
ingredients), "\n".join(i.strip().lower() for i in instructions)])`,
UTF-8-encodes it and returns the SHA-256 hex digest. -/

/-- ASCII fragment of Python's `str.lower()` (see the file header note). -/
def pyLowerChar (c : Char) : Char :=
  if 65 ≤ c.toNat ∧ c.toNat ≤ 90 then Char.ofNat (c.toNat + 32) else c

/-- `s.lower()` on the model. -/
def pyLower (s : Str) : Str := s.map pyLowerChar

/-- `x.strip().lower()`, applied by `_fingerprint` to each component. -/
def stripLower (s : Str) : Str := pyLower (pyStrip s)

/-- `"\n".join(l)`. -/
def joinNL : List Str → Str
  | [] => []
  | s :: rest => s ++ rest.flatMap (fun t => '\n' :: t)

/-- UTF-8 encoding of one character (every Lean `Char` is a Unicode scalar
value, so the `errors="ignore"` clause of the source is never exercised). -/
def utf8Char (c : Char) : List Nat :=
  let n := c.toNat
  if n < 0x80 then [n]
  else if n < 0x800 then [0xC0 + n / 0x40, 0x80 + n % 0x40]
  else if n < 0x10000 then
    [0xE0 + n / 0x1000, 0x80 + n / 0x40 % 0x40, 0x80 + n % 0x40]
  else
    [0xF0 + n / 0x40000, 0x80 + n / 0x1000 % 0x40,
     0x80 + n / 0x40 % 0x40, 0x80 + n % 0x40]

/-- UTF-8 encoding of a string, as a byte list. -/
def utf8Encode (s : Str) : List Nat := s.flatMap utf8Char

/-! ### SHA-256 (FIPS 180-4), executable over byte lists -/

/-- Truncation to a 32-bit word. -/
def w32 (n : Nat) : Nat := n % 4294967296

/-- Right rotation of a 32-bit word. -/
def rotr32 (n x : Nat) : Nat := w32 (x / 2 ^ n + x % 2 ^ n * 2 ^ (32 - n))

/-- SHA-256 `Ch`. -/
def shaCh (x y z : Nat) : Nat := (x &&& y) ^^^ ((x ^^^ 0xffffffff) &&& z)

/-- SHA-256 `Maj`. -/
def shaMaj (x y z : Nat) : Nat := (x &&& y) ^^^ (x &&& z) ^^^ (y &&& z)

/-- SHA-256 `Σ0`. -/
def shaBigS0 (x : Nat) : Nat := rotr32 2 x ^^^ rotr32 13 x ^^^ rotr32 22 x

/-- SHA-256 `Σ1`. -/
def shaBigS1 (x : Nat) : Nat := rotr32 6 x ^^^ rotr32 11 x ^^^ rotr32 25 x

/-- SHA-256 `σ0`. -/
def shaSmlS0 (x : Nat) : Nat := rotr32 7 x ^^^ rotr32 18 x ^^^ x / 2 ^ 3

/-- SHA-256 `σ1`. -/
def shaSmlS1 (x : Nat) : Nat := rotr32 17 x ^^^ rotr32 19 x ^^^ x / 2 ^ 10

/-- SHA-256 round constants (FIPS 180-4 §4.2.2, written in decimal). -/
def sha256K : List Nat :=
  [1116352408, 1899447441, 3049323471, 3921009573, 961987163, 1508970993,
   2453635748, 2870763221, 3624381080, 310598401, 607225278, 1426881987,
   1925078388, 2162078206, 2614888103, 3248222580, 3835390401, 4022224774,
   264347078, 604807628, 770255983, 1249150122, 1555081692, 1996064986,
   2554220882, 2821834349, 2952996808, 3210313671, 3336571891, 3584528711,
   113926993, 338241895, 666307205, 773529912, 1294757372, 1396182291,
   1695183700, 1986661051, 2177026350, 2456956037, 2730485921, 2820302411,
   3259730800, 3345764771, 3516065817, 3600352804, 4094571909, 275423344,
   430227734, 506948616, 659060556, 883997877, 958139571, 1322822218,
   1537002063, 1747873779, 1955562222, 2024104815, 2227730452, 2361852424,
   2428436474, 2756734187, 3204031479, 3329325298]

/-- SHA-256 initial hash value (FIPS 180-4 §5.3.3, written in decimal). -/
def sha256Init : List Nat :=
  [1779033703, 3144134277, 1013904242, 2773480762,
   1359893119, 2600822924, 528734635, 1541459225]

/-- Big-endian byte expansion, `n` bytes. -/
def toBytesBE : Nat → Nat → List Nat
  | 0, _ => []
  | n + 1, v => toBytesBE n (v / 256) ++ [v % 256]

/-- SHA-256 message padding. -/
def sha256Pad (m : List Nat) : List Nat :=
  let L := m.length
  let k := (64 + 55 - L % 64) % 64
  m ++ 0x80 :: List.replicate k 0 ++ toBytesBE 8 (L * 8)

/-- Big-endian 4-byte words from a byte list. -/
def bytesToWords : List Nat → List Nat
  | b0 :: b1 :: b2 :: b3 :: rest =>
    (((b0 * 256 + b1) * 256 + b2) * 256 + b3) :: bytesToWords rest
  | _ => []

/-- Split into 64-byte blocks (fuelled to keep the recursion structural). -/
def chunksAux : Nat → List Nat → List (List Nat)
  | 0, _ => []
  | _, [] => []
  | fuel + 1, l => l.take 64 :: chunksAux fuel (l.drop 64)

/-- Split a byte list into 64-byte blocks. -/
def chunks (l : List Nat) : List (List Nat) := chunksAux l.length l

/-- SHA-256 message schedule: extend 16 words to 64. -/
def shaSchedule (w : List Nat) : List Nat :=
  (List.range 48).foldl (fun w _ =>
    let n := w.length
    w ++ [w32 (shaSmlS1 (w.getD (n - 2) 0) + w.getD (n - 7) 0 +
               shaSmlS0 (w.getD (n - 15) 0) + w.getD (n - 16) 0)]) w

/-- One SHA-256 round on the eight-word state. -/
def shaRound (st : List Nat) (kw : Nat × Nat) : List Nat :=
  match st with
  | [a, b, c, d, e, f, g, h] =>
    let t1 := w32 (h + shaBigS1 e + shaCh e f g + kw.1 + kw.2)
    let t2 := w32 (shaBigS0 a + shaMaj a b c)
    [w32 (t1 + t2), a, b, c, w32 (d + t1), e, f, g]
  | st => st

/-- SHA-256 compression of one 64-byte block. -/
def shaCompress (h : List Nat) (block : List Nat) : List Nat :=
  let ws := shaSchedule (bytesToWords block)
  let st := (sha256K.zip ws).foldl shaRound h
  (h.zip st).map (fun p => w32 (p.1 + p.2))

/-- SHA-256 digest (32 bytes) of a byte list. -/
def sha256Bytes (msg : List Nat) : List Nat :=
  ((chunks (sha256Pad msg)).foldl shaCompress sha256Init).flatMap (toBytesBE 4)

/-- Lower-case hex digit. -/
def hexDigitChar (n : Nat) : Char :=
  if n < 10 then Char.ofNat (48 + n) else Char.ofNat (87 + n)

/-- `hexdigest()` of a byte list. -/
def hexdigest (bytes : List Nat) : Str :=
  bytes.flatMap (fun b => [hexDigitChar (b / 16), hexDigitChar (b % 16)])

/-- SHA-256 hex digest of a byte list. -/
def sha256hex (msg : List Nat) : Str := hexdigest (sha256Bytes msg)

/-- The payload string built by `_fingerprint` before hashing. -/
def fingerprintPayload (name : Str) (ingredients instructions : List Str) : Str :=
  joinNL [stripLower name,
          joinNL (ingredients.map stripLower),
          joinNL (instructions.map stripLower)]

/-- `_fingerprint` of the spider: SHA-256 hex digest of the UTF-8 encoded
payload. -/
def _fingerprint (name : Str) (ingredients instructions : List Str) : Str :=
  sha256hex (utf8Encode (fingerprintPayload name ingredients instructions))

/-! ## JSON values (the result of `json.loads` on a script block) -/

/-- JSON values.  Numbers are modelled as integers (no claim involves
fractional numeric fields). -/
inductive Json where
  | null : Json
  | bool : Bool → Json
  | num : Int → Json
  | str : Str → Json
  | arr : List Json → Json
  | obj : List (Str × Json) → Json

/-- `d.get(key)` on a decoded JSON object, last duplicate key winning as in
Python's `json.loads`. -/
def jget : List (Str × Json) → Str → Option Json
  | [], _ => none
  | (k, v) :: rest, key =>
    match jget rest key with
    | some r => some r
    | none => if k = key then some v else none

/-- Python truthiness of an optional JSON value (`none` models a missing
key, i.e. `d.get(k)` returning `None`). -/
def jTruthy : Option Json → Bool
  | none => false
  | some .null => false
  | some (.bool b) => b
  | some (.num n) => !(n == 0)
  | some (.str s) => !s.isEmpty
  | some (.arr l) => !l.isEmpty
  | some (.obj l) => !l.isEmpty

/-- Decimal representation of a natural number (fuelled). -/
def natToStrAux : Nat → Nat → Str
  | 0, _ => []
  | fuel + 1, n =>
    if n < 10 then [Char.ofNat (48 + n)]
    else natToStrAux fuel (n / 10) ++ [Char.ofNat (48 + n % 10)]

/-- Decimal representation of a natural number. -/
def natToStr (n : Nat) : Str := natToStrAux (n + 1) n

/-- `str(x)` on scalar JSON values.  The `repr`-style conversion Python
applies to containers is not modelled (no call site relevant to a claim
reaches it with a container). -/
def jsonToPyStr : Json → Str
  | .str s => s
  | .num (.ofNat n) => natToStr n
  | .num (.negSucc m) => '-' :: natToStr (m + 1)
  | .bool true => str "True"
  | .bool false => str "False"
  | .null => str "None"
  | .arr _ => str "[...]"
  | .obj _ => str "\x7b...\x7d"

/-! ## Structured-data (JSON-LD) extraction -/

/-- Truthiness of an optional model string (Python `None` and `""` are
falsy). -/
def truthyS : Option Str → Bool
  | none => false
  | some s => !s.isEmpty

/-- Python's `a or b` on optional strings: `b` when `a` is falsy. -/
def orFalsy (a b : Option Str) : Option Str := if truthyS a then a else b

/-- `_is_recipe_type`: the `@type` value is the string `"Recipe"` or a list
containing it. -/
def _is_recipe_type : Option Json → Bool
  | some (.str s) => s = str "Recipe"
  | some (.arr l) => l.any (fun j =>
      match j with
      | .str s => s = str "Recipe"
      | _ => false)
  | _ => false

/-- The direct-object test of `_find_recipe_in_jsonld`: a dict whose
`@type` matches. -/
def recipeNode? (j : Json) : Option Json :=
  match j with
  | .obj kvs => if _is_recipe_type (jget kvs (str "@type")) then some j else none
  | _ => none

/-- `_find_recipe_in_jsonld`: direct dict, dict with `@graph`, list of
dicts, or `@graph` nested inside a list item. -/
def _find_recipe_in_jsonld : Json → Option Json
  | .obj kvs =>
    if _is_recipe_type (jget kvs (str "@type")) then some (.obj kvs)
    else
      match jget kvs (str "@graph") with
      | some (.arr graph) => graph.findSome? recipeNode?
      | _ => none
  | .arr nodes =>
    nodes.findSome? (fun node =>
      match node with
      | .obj kvs =>
        if _is_recipe_type (jget kvs (str "@type")) then some node
        else
          match jget kvs (str "@graph") with
          | some (.arr graph) => graph.findSome? recipeNode?
          | _ => none
      | _ => none)
  | _ => none

/-- The extractor-level result record (dataclass `ExtractResult`). -/
structure ExtractResult where
  name : Option Str
  image_url : Option Str
  ingredients_raw : List Str
  instructions_raw : List Str
  servings_raw : Option Str
  cuisine : Option Str
  description : Option Str
  author_name : Option Str
  extract_source : Str
  extract_error : Option Str
deriving DecidableEq, Repr

/-- `_coerce_image`: string, list of strings / dicts-with-`url`, or a
dict-with-`url`. -/
def _coerce_image (j : Option Json) : Option Str :=
  if jTruthy j = false then none
  else
    match j with
    | some (.str s) => some (pyStrip s)
    | some (.arr l) =>
      l.findSome? (fun x =>
        match x with
        | .str s => if (pyStrip s).isEmpty then none else some (pyStrip s)
        | .obj kvs =>
          if jTruthy (jget kvs (str "url")) then
            some (pyStrip (jsonToPyStr ((jget kvs (str "url")).getD .null)))
          else none
        | _ => none)
    | some (.obj kvs) =>
      if jTruthy (jget kvs (str "url")) then
        some (pyStrip (jsonToPyStr ((jget kvs (str "url")).getD .null)))
      else none
    | _ => none

/-- One entry of a `recipeIngredient` array as fed to `_clean_lines`
(`None` entries are skipped there; scalars go through `str(x)`). -/
def jsonLineEntry : Json → Option Str
  | .null => none
  | j => some (jsonToPyStr j)

/-- `recipe.get("recipeIngredient") or []`, a single string wrapped as a
one-element list.  A truthy value that is neither a string nor a list makes
the Python iteration in `_clean_lines` raise (dict iterates its keys, an int
raises `TypeError` caught by the orchestrator); those shapes are outside
every claim and are modelled as the empty list. -/
def jIngredientLines (j : Option Json) : List (Option Str) :=
  if jTruthy j = false then []
  else
    match j with
    | some (.str s) => [some s]
    | some (.arr l) => l.map jsonLineEntry
    | _ => []

/-- One `recipeInstructions` step: a dict carrying `text` (preferred) or
`name`, or a plain string; anything else is skipped. -/
def stepText : Json → Option Str
  | .obj kvs =>
    let t := jget kvs (str "text")
    let chosen := if jTruthy t then t else jget kvs (str "name")
    if jTruthy chosen then some (pyStrip (jsonToPyStr (chosen.getD .null)))
    else none
  | .str s => some (pyStrip s)
  | _ => none

/-- The instruction lines collected by `_parse_from_jsonld`: a single string
is wrapped, a list is scanned step by step, any other shape leaves the list
empty (`if isinstance(ins, list)` guard). -/
def jInstructionSteps (j : Option Json) : List Str :=
  if jTruthy j = false then []
  else
    match j with
    | some (.str s) => [pyStrip s]
    | some (.arr l) => l.filterMap stepText
    | _ => []

/-- A scalar JSON field stringified and stripped when truthy
(`str(v).strip() if v else None`). -/
def jScalarStr (j : Option Json) : Option Str :=
  if jTruthy j then some (pyStrip (jsonToPyStr (j.getD .null))) else none

/-- `_parse_from_jsonld` on a matched Recipe node.  A non-string `name`
value is modelled as absent (the claims only exercise string or missing
names). -/
def _parse_from_jsonld (recipe : Json) : ExtractResult :=
  let kvs := match recipe with | .obj l => l | _ => []
  let authorName : Option Json :=
    match jget kvs (str "author") with
    | some (.obj a) => jget a (str "name")
    | some (.arr (first :: _)) =>
      match first with
      | .obj a => jget a (str "name")
      | _ => none
    | _ => none
  { name :=
      match jget kvs (str "name") with
      | some (.str s) => some s
      | _ => none,
    image_url := _coerce_image (jget kvs (str "image")),
    ingredients_raw := _clean_lines (jIngredientLines (jget kvs (str "recipeIngredient"))),
    instructions_raw := cleanStrs (jInstructionSteps (jget kvs (str "recipeInstructions"))),
    servings_raw := jScalarStr (jget kvs (str "recipeYield")),
    cuisine := jScalarStr (jget kvs (str "recipeCuisine")),
    description := jScalarStr (jget kvs (str "description")),
    author_name := jScalarStr authorName,
    extract_source := str "jsonld",
    extract_error := none }

/-! ## The response model

A `Response` records exactly the selector results `parse_recipe` and its
helpers read from the Scrapy response object: the decoded JSON-LD script
blocks (`none` models a block whose raw text is empty or fails
`json.loads`), the text of the individual CSS/XPath queries, and, for the
heading-anchored heuristic, the raw text nodes each `(label, branch)` XPath
query returns — `false` selects the `following::*[self::ul or self::ol]`
query and `true` the `h1..h4` `following-sibling` query. -/
structure Response where
  url : Str
  jsonld_blocks : List (Option Json)
  h1_text : Option Str
  testid_title : Option Str
  og_image : Option Str
  img_src : Option Str
  ingredients_testid : List Str
  instructions_testid : List Str
  servings_khau_phan : Option Str
  servings_en : Option Str
  meta_description : Option Str
  title_text : Option Str
  heading_query : Str → Bool → List Str

/-- `_extract_recipe_jsonld`: first decodable block containing a Recipe
node; malformed blocks (`none`) are skipped. -/
def _extract_recipe_jsonld (r : Response) : Option Json :=
  r.jsonld_blocks.findSome? (fun b => b.bind _find_recipe_in_jsonld)

/-! ## Title fallback -/

/-- Leading-whitespace consumption for the `\s*` pieces of the title
regex. -/
def dropPyWs (l : Str) : Str := lstrip isPySpace l

/-- `pat` is an initial segment of `l`. -/
def startsWithStr : Str → Str → Bool
  | _, [] => true
  | [], _ :: _ => false
  | c :: cs, d :: ds => c = d && startsWithStr cs ds

/-- `.*$` of the title regex matches the whole remainder: no newline except
possibly a final one (Python `.` does not cross newlines and `$` also
matches just before a trailing newline). -/
def dotStarToEnd (l : Str) : Bool :=
  let core := match l.getLast? with
    | some '\n' => l.dropLast
    | _ => l
  !core.contains '\n'

/-- Does the regex `\s*\|\s*Cookpad.*$` match starting at this position? -/
def cookpadSuffixAt (l : Str) : Bool :=
  match dropPyWs l with
  | '|' :: rest =>
    let rest2 := dropPyWs rest
    startsWithStr rest2 (str "Cookpad") && dotStarToEnd (rest2.drop 7)
  | _ => false

/-- `re.sub(r"\s*\|\s*Cookpad.*$", "", t)`: the leftmost match (which by the
shape of the pattern always extends to the end) is removed. -/
def stripCookpadSuffix : Str → Str
  | [] => []
  | c :: cs => if cookpadSuffixAt (c :: cs) then [] else c :: stripCookpadSuffix cs

/-- `_fallback_title`: the `<title>` text with the trailing site name
removed; `None` when the title is missing, empty, or empty once cleaned. -/
def _fallback_title (r : Response) : Option Str :=
  match r.title_text with
  | none => none
  | some t =>
    if t.isEmpty then none
    else
      let t2 := pyStrip (stripCookpadSuffix t)
      if t2.isEmpty then none else some t2

/-! ## Heading-anchored DOM section extraction -/

/-- `_extract_section_list_by_heading`: for each heading label in order, try
the following-list XPath, then the heading-sibling XPath; the first
non-empty cleaned result is returned truncated to `max_items` (the source's
default for `max_items` is 50, passed explicitly here); otherwise the empty
list. -/
def _extract_section_list_by_heading (r : Response) (labels : List Str)
    (max_items : Nat) : List Str :=
  match labels with
  | [] => []
  | lab :: rest =>
    let items1 := cleanStrs (r.heading_query lab false)
    if !items1.isEmpty then items1.take max_items
    else
      let items2 := cleanStrs (r.heading_query lab true)
      if !items2.isEmpty then items2.take max_items
      else _extract_section_list_by_heading r rest max_items

/-- `_parse_from_dom`: best-effort DOM fallback. -/
def _parse_from_dom (r : Response) : ExtractResult :=
  let name0 := orFalsy r.h1_text (orFalsy r.testid_title (_fallback_title r))
  let image0 := orFalsy r.og_image r.img_src
  let ingredients :=
    if r.ingredients_testid.isEmpty then
      _extract_section_list_by_heading r
        [str "Nguyên Liệu", str "Nguyên liệu", str "Ingredients"] 50
    else r.ingredients_testid
  let instructions :=
    if r.instructions_testid.isEmpty then
      _extract_section_list_by_heading r
        [str "Hướng dẫn cách làm", str "Cách làm", str "Directions",
         str "Instructions"] 50
    else r.instructions_testid
  let servings0 := orFalsy r.servings_khau_phan r.servings_en
  { name := if truthyS name0 then name0.map pyStrip else none,
    image_url := if truthyS image0 then image0.map pyStrip else none,
    ingredients_raw := cleanStrs ingredients,
    instructions_raw := cleanStrs instructions,
    servings_raw := if truthyS servings0 then servings0.map pyStrip else none,
    cuisine := none,
    description := r.meta_description,
    author_name := none,
    extract_source := str "dom",
    extract_error := none }

/-! ## The orchestrator `parse_recipe` -/

/-- The record `parse_recipe` yields (one Python dict per attempt).  The
failure dict leaves the keys `servings_raw`, `cuisine`, `description` and
`author_name` absent; absence is modelled as `none`. -/
structure RecipeRecord where
  source_url : Str
  extract_status : Str
  extract_error : Option Str
  extract_source : Option Str
  name : Option Str
  image_url : Option Str
  servings_raw : Option Str
  cuisine : Option Str
  description : Option Str
  author_name : Option Str
  ingredients_raw : List Str
  instructions_raw : List Str
  content_fingerprint : Str
deriving DecidableEq, Repr

/-- Step 1 of `parse_recipe`: the JSON-LD result, when a Recipe node was
found. -/
def jsonldResult (r : Response) : Option ExtractResult :=
  (_extract_recipe_jsonld r).map _parse_from_jsonld

/-- Step 2 of `parse_recipe`: DOM fallback when there is no JSON-LD result
or when its ingredient and instruction lists are **both** empty
(`if not res or (not res.ingredients_raw and not res.instructions_raw)`). -/
def chooseResult (r : Response) : ExtractResult :=
  match jsonldResult r with
  | none => _parse_from_dom r
  | some res =>
    if res.ingredients_raw.isEmpty && res.instructions_raw.isEmpty then
      _parse_from_dom r
    else res

/-- The body of the `try` block of `parse_recipe`; each `raise` is an
`Except.error` carrying the exception message. -/
def tryBody (r : Response) : Except Str RecipeRecord :=
  let res := chooseResult r
  let ingredients := cleanStrs res.ingredients_raw
  let instructions := cleanStrs res.instructions_raw
  match orFalsy res.name (_fallback_title r) with
  | none => .error (str "Missing recipe name")
  | some s =>
    if s.isEmpty then .error (str "Missing recipe name")
    else if ingredients.isEmpty then .error (str "Missing ingredients")
    else if instructions.isEmpty then .error (str "Missing instructions")
    else .ok
      { source_url := r.url,
        extract_status := str "ok",
        extract_error := none,
        extract_source := some res.extract_source,
        name := some s,
        image_url := res.image_url,
        servings_raw := res.servings_raw,
        cuisine := res.cuisine,
        description := res.description,
        author_name := res.author_name,
        ingredients_raw := ingredients,
        instructions_raw := instructions,
        content_fingerprint := _fingerprint s ingredients instructions }

/-- The record built by the `except` branch of `parse_recipe`: at that point
`out` still lacks the content keys, so the name defaults to `""`, both lists
to `[]`, and the fingerprint is `_fingerprint("", [], [])`. -/
def failRecord (r : Response) (e : Str) : RecipeRecord :=
  { source_url := r.url,
    extract_status := str "fail",
    extract_error := some e,
    extract_source := none,
    name := none,
    image_url := none,
    servings_raw := none,
    cuisine := none,
    description := none,
    author_name := none,
    ingredients_raw := [],
    instructions_raw := [],
    content_fingerprint := _fingerprint [] [] [] }

/-- `parse_recipe`: the `try` body, with every raised exception converted to
the failure record. -/
def parse_recipe (r : Response) : RecipeRecord :=
  match tryBody r with
  | .ok rec => rec
  | .error e => failRecord r e

/-- The sequence of items the `parse_recipe` generator yields: the single
unconditional `yield out`. -/
def parse_recipe_items (r : Response) : List RecipeRecord := [parse_recipe r]

/-! ## Specification-side descriptions (used to state refinement theorems) -/

/-- The cleaned results of the branch searches of
`_extract_section_list_by_heading`, in the order the source tries them:
for each label first the following-list query, then the heading-sibling
query. -/
def headingBranchResults (r : Response) (labels : List Str) : List (List Str) :=
  labels.flatMap (fun lab =>
    [cleanStrs (r.heading_query lab false), cleanStrs (r.heading_query lab true)])

/-- The first non-empty entry of a list of lists, or `[]` when all entries
are empty (the spec's "first label's non-empty match ... absence of any
match yields an empty sequence"). -/
def firstNonEmptyList (l : List (List Str)) : List Str :=
  (l.findSome? (fun xs => if xs.isEmpty then none else some xs)).getD []

/-! ## Concrete inputs used by counterexamples and witnesses -/

/-- A response with nothing on it: empty 200-page body (no JSON-LD block,
no title, no DOM content). -/
def emptyR : Response :=
  { url := str "https://cookpad.com/vn/recipes/0", jsonld_blocks := [],
    h1_text := none, testid_title := none, og_image := none, img_src := none,
    ingredients_testid := [], instructions_testid := [],
    servings_khau_phan := none, servings_en := none, meta_description := none,
    title_text := none, heading_query := fun _ _ => [] }

/-- A JSON-LD Recipe node with a name and instructions but no
`recipeIngredient` key. -/
def recipeNoIngredients : Json :=
  .obj [(str "@type", .str (str "Recipe")),
        (str "name", .str (str "Pho")),
        (str "recipeInstructions", .arr [.str (str "cook it")])]

/-- A page carrying `recipeNoIngredients` as structured data together with a
DOM from which the fallback extractor would recover a complete recipe
(title, ingredient list items and instruction list items all present). -/
def pageJsonldMissingIngredients : Response :=
  { emptyR with
    url := str "https://cookpad.com/vn/recipes/1"
    jsonld_blocks := [some recipeNoIngredients]
    h1_text := some (str "Pho")
    title_text := some (str "Pho")
    ingredients_testid := [str "1 beef", str "2 noodles"]
    instructions_testid := [str "boil", str "serve"] }

/-- A second all-empty page at a different URL. -/
def emptyR2 : Response :=
  { emptyR with url := str "https://cookpad.com/vn/recipes/2" }

/-- A 200 page with a `<title>` but no extractable content: validation
fails on ingredients. -/
def titledEmptyPage : Response :=
  { emptyR with
    url := str "https://cookpad.com/vn/recipes/3"
    title_text := some (str "Pho ngon") }

/-- A page whose DOM yields a full recipe (name from the `<title>`
fallback, both lists from the test-id containers). -/
def richDomPage : Response :=
  { emptyR with
    url := str "https://cookpad.com/vn/recipes/4"
    title_text := some (str "Pho ngon | Cookpad")
    ingredients_testid := [str " 1 beef ", str "2 noodles"]
    instructions_testid := [str "boil", str "serve"] }

/-! # Theorems

## Helper lemmas: fixed points of the whitespace-normalization pipeline -/

/-- The head, when present, does not satisfy `p`. -/
def headNotP (p : Char → Bool) : Str → Prop
  | [] => True
  | c :: _ => p c = false

/-- The last character, when present, does not satisfy `p`. -/
def lastNotP (p : Char → Bool) (l : Str) : Prop :=
  match l.getLast? with
  | none => True
  | some c => p c = false

/-- No two adjacent characters both satisfy `p`. -/
def NoTwo (p : Char → Bool) (l : Str) : Prop :=
  List.Chain' (fun a b => p a = false ∨ p b = false) l

theorem noTwo_nil (p : Char → Bool) : NoTwo p [] := List.chain'_nil

theorem noTwo_tail {p : Char → Bool} {c : Char} {l : Str}
    (h : NoTwo p (c :: l)) : NoTwo p l := h.tail

theorem lstrip_headNotP (p : Char → Bool) : ∀ l : Str, headNotP p (lstrip p l)
  | [] => trivial
  | c :: cs => by
    by_cases hc : p c = true
    · simpa [lstrip, hc] using lstrip_headNotP p cs
    · rw [Bool.not_eq_true] at hc
      rw [lstrip, if_neg (by simp [hc])]
      exact hc

theorem lstrip_eq_self {p : Char → Bool} : ∀ {l : Str}, headNotP p l → lstrip p l = l
  | [], _ => rfl
  | c :: _, h => by
    have hc : p c = false := h
    simp [lstrip, hc]

theorem lstrip_mem {p : Char → Bool} : ∀ {l : Str} {c : Char}, c ∈ lstrip p l → c ∈ l
  | [], _, h => h
  | d :: ds, c, h => by
    by_cases hd : p d = true
    · rw [lstrip, if_pos hd] at h
      exact List.mem_cons_of_mem d (lstrip_mem h)
    · rw [Bool.not_eq_true] at hd
      rw [lstrip, if_neg (by simp [hd])] at h
      exact h

theorem lstrip_chain {R : Char → Char → Prop} {p : Char → Bool} :
    ∀ {l : Str}, List.Chain' R l → List.Chain' R (lstrip p l)
  | [], h => h
  | d :: _, h => by
    by_cases hd : p d = true
    · rw [lstrip, if_pos hd]
      exact lstrip_chain h.tail
    · rw [Bool.not_eq_true] at hd
      rw [lstrip, if_neg (by simp [hd])]
      exact h

theorem rstrip_mem {p : Char → Bool} : ∀ {l : Str} {c : Char}, c ∈ rstrip p l → c ∈ l
  | [], _, h => h
  | d :: ds, c, h => by
    rw [rstrip] at h
    cases hr : rstrip p ds with
    | nil =>
      rw [hr] at h
      by_cases hd : p d = true
      · simp [hd] at h
      · rw [Bool.not_eq_true] at hd
        simp [hd] at h
        simp [h]
    | cons e es =>
      rw [hr] at h
      rcases List.mem_cons.mp h with h | h
      · simp [h]
      · exact List.mem_cons_of_mem d (rstrip_mem (hr ▸ h))

theorem rstrip_head (p : Char → Bool) :
    ∀ l : Str, (rstrip p l).head? = none ∨ (rstrip p l).head? = l.head?
  | [] => Or.inl rfl
  | d :: ds => by
    rw [rstrip]
    cases hr : rstrip p ds with
    | nil =>
      by_cases hd : p d = true
      · simp [hd]
      · rw [Bool.not_eq_true] at hd
        simp [hd]
    | cons e es => simp

theorem rstrip_lastNotP (p : Char → Bool) : ∀ l : Str, lastNotP p (rstrip p l)
  | [] => trivial
  | d :: ds => by
    rw [rstrip]
    cases hr : rstrip p ds with
    | nil =>
      by_cases hd : p d = true
      · simp [hd, lastNotP]
      · rw [Bool.not_eq_true] at hd
        simp [hd, lastNotP, hd]
    | cons e es =>
      have := rstrip_lastNotP p ds
      rw [hr] at this
      simpa [lastNotP, List.getLast?_cons_cons] using this

theorem rstrip_eq_self {p : Char → Bool} : ∀ {l : Str}, lastNotP p l → rstrip p l = l
  | [], _ => rfl
  | [c], h => by
    have hc : p c = false := by simpa [lastNotP] using h
    simp [rstrip, hc]
  | c :: d :: ds, h => by
    have htail : lastNotP p (d :: ds) := by
      simpa [lastNotP, List.getLast?_cons_cons] using h
    rw [rstrip, rstrip_eq_self htail]

theorem rstrip_headNotP {p q : Char → Bool} {l : Str} (h : headNotP q l) :
    headNotP q (rstrip p l) := by
  rcases rstrip_head p l with h0 | h0
  · cases hr : rstrip p l with
    | nil => trivial
    | cons e es => rw [hr] at h0; simp at h0
  · cases hr : rstrip p l with
    | nil => trivial
    | cons e es =>
      rw [hr] at h0
      cases l with
      | nil => simp at h0
      | cons c cs =>
        simp at h0
        subst h0
        exact h

theorem rstrip_chain {R : Char → Char → Prop} {p : Char → Bool} :
    ∀ {l : Str}, List.Chain' R l → List.Chain' R (rstrip p l)
  | [], h => h
  | d :: ds, h => by
    rw [rstrip]
    cases hr : rstrip p ds with
    | nil =>
      by_cases hd : p d = true
      · simp [hd]
      · rw [Bool.not_eq_true] at hd
        simp [hd]
    | cons e es =>
      have hch : List.Chain' R (e :: es) := hr ▸ rstrip_chain h.tail
      rw [List.chain'_cons']
      refine ⟨?_, hch⟩
      intro b hb
      simp at hb
      subst hb
      rcases rstrip_head p ds with h0 | h0
      · rw [hr] at h0; simp at h0
      · rw [hr] at h0
        cases ds with
        | nil => simp at h0
        | cons x xs =>
          simp at h0
          subst h0
          exact (List.chain'_cons.mp h).1

theorem collapseAux_eq_self {p : Char → Bool} {rep : Char} :
    ∀ {l : Str} {st : Bool}, NoTwo p l → (∀ c ∈ l, p c = true → c = rep) →
      (st = true → headNotP p l) → collapseAux p rep st l = l
  | [], st, _, _, _ => by cases st <;> rfl
  | c :: cs, st, hchain, hmem, hhead => by
    by_cases hc : p c = true
    · cases st with
      | true =>
        have : p c = false := hhead rfl
        rw [hc] at this
        exact absurd this (by simp)
      | false =>
        rw [collapseAux, if_pos hc, if_neg (by simp)]
        have hrep : c = rep := hmem c (List.mem_cons_self c cs) hc
        have hnext : headNotP p cs := by
          cases cs with
          | nil => trivial
          | cons d ds =>
            rcases (List.chain'_cons.mp hchain).1 with h | h
            · rw [hc] at h; exact absurd h (by simp)
            · exact h
        rw [collapseAux_eq_self (noTwo_tail hchain)
          (fun x hx => hmem x (List.mem_cons_of_mem c hx)) (fun _ => hnext), ← hrep]
    · rw [Bool.not_eq_true] at hc
      rw [collapseAux, if_neg (by simp [hc])]
      rw [collapseAux_eq_self (noTwo_tail hchain)
        (fun x hx => hmem x (List.mem_cons_of_mem c hx)) (by simp)]

theorem collapseAux_mem {p : Char → Bool} {rep : Char} :
    ∀ {l : Str} {st : Bool} {c : Char}, c ∈ collapseAux p rep st l → c ∈ l ∨ c = rep
  | [], st, c, h => by cases st <;> simp [collapseAux] at h
  | d :: ds, st, c, h => by
    by_cases hd : p d = true
    · rw [collapseAux, if_pos hd] at h
      cases st with
      | true =>
        rw [if_pos rfl] at h
        rcases collapseAux_mem h with h | h
        · exact Or.inl (List.mem_cons_of_mem d h)
        · exact Or.inr h
      | false =>
        rw [if_neg (by simp)] at h
        rcases List.mem_cons.mp h with h | h
        · exact Or.inr h
        · rcases collapseAux_mem h with h | h
          · exact Or.inl (List.mem_cons_of_mem d h)
          · exact Or.inr h
    · rw [Bool.not_eq_true] at hd
      rw [collapseAux, if_neg (by simp [hd])] at h
      rcases List.mem_cons.mp h with h | h
      · exact Or.inl (h ▸ List.mem_cons_self d ds)
      · rcases collapseAux_mem h with h | h
        · exact Or.inl (List.mem_cons_of_mem d h)
        · exact Or.inr h

theorem collapseAux_p_eq_rep {p : Char → Bool} {rep : Char} :
    ∀ {l : Str} {st : Bool} {c : Char},
      c ∈ collapseAux p rep st l → p c = true → c = rep
  | [], st, c, h, _ => by cases st <;> simp [collapseAux] at h
  | d :: ds, st, c, h, hpc => by
    by_cases hd : p d = true
    · rw [collapseAux, if_pos hd] at h
      cases st with
      | true =>
        rw [if_pos rfl] at h
        exact collapseAux_p_eq_rep h hpc
      | false =>
        rw [if_neg (by simp)] at h
        rcases List.mem_cons.mp h with h | h
        · exact h
        · exact collapseAux_p_eq_rep h hpc
    · rw [Bool.not_eq_true] at hd
      rw [collapseAux, if_neg (by simp [hd])] at h
      rcases List.mem_cons.mp h with h | h
      · rw [h] at hpc; rw [hpc] at hd; exact absurd hd (by simp)
      · exact collapseAux_p_eq_rep h hpc

theorem collapseAux_true_headNotP (p : Char → Bool) (rep : Char) :
    ∀ l : Str, headNotP p (collapseAux p rep true l)
  | [] => trivial
  | d :: ds => by
    by_cases hd : p d = true
    · rw [collapseAux, if_pos hd, if_pos rfl]
      exact collapseAux_true_headNotP p rep ds
    · rw [Bool.not_eq_true] at hd
      rw [collapseAux, if_neg (by simp [hd])]
      exact hd

theorem collapseAux_noTwo (p : Char → Bool) (rep : Char) :
    ∀ (l : Str) (st : Bool), NoTwo p (collapseAux p rep st l)
  | [], st => by cases st <;> exact List.chain'_nil
  | d :: ds, st => by
    by_cases hd : p d = true
    · rw [collapseAux, if_pos hd]
      cases st with
      | true =>
        rw [if_pos rfl]
        exact collapseAux_noTwo p rep ds true
      | false =>
        rw [if_neg (by simp)]
        rw [NoTwo, List.chain'_cons']
        refine ⟨?_, collapseAux_noTwo p rep ds true⟩
        intro b hb
        have hh := collapseAux_true_headNotP p rep ds
        cases hcb : collapseAux p rep true ds with
        | nil => rw [hcb] at hb; simp at hb
        | cons e es =>
          rw [hcb] at hb hh
          simp at hb
          subst hb
          exact Or.inr hh
    · rw [Bool.not_eq_true] at hd
      rw [collapseAux, if_neg (by simp [hd])]
      rw [NoTwo, List.chain'_cons']
      exact ⟨fun b _ => Or.inl hd, collapseAux_noTwo p rep ds false⟩

theorem collapseAux_pres_pmem {q : Char → Bool} {rq : Char} {p : Char → Bool}
    {rp : Char} (hrq : p rq = false) {l : Str} {st : Bool}
    (hl : ∀ d ∈ l, p d = true → d = rp) :
    ∀ c ∈ collapseAux q rq st l, p c = true → c = rp := by
  intro c hc hpc
  rcases collapseAux_mem hc with h | h
  · exact hl c h hpc
  · rw [h] at hpc; rw [hpc] at hrq; exact absurd hrq (by simp)

theorem collapseAux_head_cases (q : Char → Bool) (rq : Char) :
    ∀ l : Str, (collapseAux q rq false l).head? = none ∨
      (collapseAux q rq false l).head? = some rq ∨
      (collapseAux q rq false l).head? = l.head?
  | [] => Or.inl rfl
  | d :: ds => by
    by_cases hd : q d = true
    · rw [collapseAux, if_pos hd, if_neg (by simp)]
      exact Or.inr (Or.inl rfl)
    · rw [Bool.not_eq_true] at hd
      rw [collapseAux, if_neg (by simp [hd])]
      exact Or.inr (Or.inr rfl)

theorem collapseAux_pres_noTwo {q : Char → Bool} {rq : Char} {p : Char → Bool}
    (hrq : p rq = false) :
    ∀ {l : Str} {st : Bool}, NoTwo p l → NoTwo p (collapseAux q rq st l)
  | [], st, _ => by cases st <;> exact List.chain'_nil
  | d :: ds, st, hchain => by
    by_cases hd : q d = true
    · rw [collapseAux, if_pos hd]
      cases st with
      | true =>
        rw [if_pos rfl]
        exact collapseAux_pres_noTwo hrq (noTwo_tail hchain)
      | false =>
        rw [if_neg (by simp)]
        rw [NoTwo, List.chain'_cons']
        refine ⟨fun b _ => Or.inl hrq, ?_⟩
        exact collapseAux_pres_noTwo hrq (noTwo_tail hchain)
    · rw [Bool.not_eq_true] at hd
      rw [collapseAux, if_neg (by simp [hd])]
      rw [NoTwo, List.chain'_cons']
      refine ⟨?_, collapseAux_pres_noTwo hrq (noTwo_tail hchain)⟩
      intro b hb
      rcases collapseAux_head_cases q rq ds with h0 | h0 | h0
      · rw [h0] at hb; simp at hb
      · rw [h0] at hb
        simp at hb
        subst hb
        exact Or.inr hrq
      · rw [h0] at hb
        cases ds with
        | nil => simp at hb
        | cons e es =>
          simp at hb
          subst hb
          exact (List.chain'_cons.mp hchain).1

theorem replaceNbsp_free (l : Str) :
    ∀ c ∈ l.map (fun c => if c = NBSP then ' ' else c), c ≠ NBSP := by
  intro c hc
  rcases List.mem_map.mp hc with ⟨d, _, hd⟩
  by_cases h : d = NBSP
  · rw [if_pos h] at hd
    rw [← hd]
    decide
  · rw [if_neg h] at hd
    rw [← hd]
    exact h

theorem replaceNbsp_eq_self {l : Str} (h : ∀ c ∈ l, c ≠ NBSP) :
    l.map (fun c => if c = NBSP then ' ' else c) = l := by
  induction l with
  | nil => rfl
  | cons c cs ih =>
    rw [List.map_cons, if_neg (h c (List.mem_cons_self c cs)),
      ih (fun x hx => h x (List.mem_cons_of_mem c hx))]

/-- The characterisation of the strings left fixed by
`_normalize_whitespace`: no non-breaking space, every horizontal-whitespace
character is a plain space, no two adjacent horizontal-whitespace
characters, no two adjacent newlines, and neither end is Python
whitespace. -/
def NormFixed (l : Str) : Prop :=
  (∀ c ∈ l, c ≠ NBSP) ∧
  (∀ c ∈ l, isHWS c = true → c = ' ') ∧
  NoTwo isHWS l ∧ NoTwo isNL l ∧
  headNotP isPySpace l ∧ lastNotP isPySpace l

theorem norm_NormFixed (s : Str) : NormFixed (_normalize_whitespace s) := by
  rw [_normalize_whitespace]
  set s0 := s.map (fun c => if c = NBSP then ' ' else c) with hs0
  set s1 := collapseAux isHWS ' ' false s0 with hs1
  set s2 := collapseAux isNL '\n' false s1 with hs2
  have h0 : ∀ c ∈ s0, c ≠ NBSP := replaceNbsp_free s
  have h1a : ∀ c ∈ s1, c ≠ NBSP := by
    intro c hc
    rcases collapseAux_mem hc with h | h
    · exact h0 c h
    · rw [h]; decide
  have h1b : ∀ c ∈ s1, isHWS c = true → c = ' ' :=
    fun c hc => collapseAux_p_eq_rep hc
  have h1c : NoTwo isHWS s1 := collapseAux_noTwo isHWS ' ' s0 false
  have h2a : ∀ c ∈ s2, c ≠ NBSP := by
    intro c hc
    rcases collapseAux_mem hc with h | h
    · exact h1a c h
    · rw [h]; decide
  have h2b : ∀ c ∈ s2, isHWS c = true → c = ' ' :=
    collapseAux_pres_pmem (by decide) h1b
  have h2c : NoTwo isHWS s2 := collapseAux_pres_noTwo (by decide) h1c
  have h2d : NoTwo isNL s2 := collapseAux_noTwo isNL '\n' s1 false
  have hsubset : ∀ c ∈ pyStrip s2, c ∈ s2 :=
    fun c hc => lstrip_mem (rstrip_mem hc)
  refine ⟨fun c hc => h2a c (hsubset c hc),
    fun c hc => h2b c (hsubset c hc),
    rstrip_chain (lstrip_chain h2c),
    rstrip_chain (lstrip_chain h2d),
    rstrip_headNotP (lstrip_headNotP isPySpace s2),
    rstrip_lastNotP isPySpace (lstrip isPySpace s2)⟩

theorem norm_eq_self {l : Str} (h : NormFixed l) : _normalize_whitespace l = l := by
  obtain ⟨h1, h2, h3, h4, h5, h6⟩ := h
  rw [_normalize_whitespace, replaceNbsp_eq_self h1]
  simp only [collapseRuns]
  rw [collapseAux_eq_self h3 h2 (by simp)]
  have h4mem : ∀ c ∈ l, isNL c = true → c = '\n' := by
    intro c _ hc
    exact of_decide_eq_true hc
  rw [collapseAux_eq_self h4 h4mem (by simp)]
  rw [pyStrip, lstrip_eq_self h5, rstrip_eq_self h6]

theorem normalize_idem (s : Str) :
    _normalize_whitespace (_normalize_whitespace s) = _normalize_whitespace s :=
  norm_eq_self (norm_NormFixed s)

/-! ## Helper lemmas: `_clean_lines` -/

theorem dedupAdjAux_mem : ∀ {l : List Str} {prev : Option Str} {t : Str},
    t ∈ dedupAdjAux prev l → t ∈ l
  | [], _, _, h => h
  | s :: rest, prev, t, h => by
    rw [dedupAdjAux] at h
    by_cases hs : some s = prev
    · rw [if_pos hs] at h
      exact List.mem_cons_of_mem s (dedupAdjAux_mem h)
    · rw [if_neg hs] at h
      rcases List.mem_cons.mp h with h | h
      · exact h ▸ List.mem_cons_self s rest
      · exact List.mem_cons_of_mem s (dedupAdjAux_mem h)

theorem dedupAdjAux_head : ∀ (l : List Str) (prev : Option Str),
    (dedupAdjAux prev l).head? = none ∨
      ∃ s, (dedupAdjAux prev l).head? = some s ∧ some s ≠ prev
  | [], _ => Or.inl rfl
  | s :: rest, prev => by
    rw [dedupAdjAux]
    by_cases hs : some s = prev
    · rw [if_pos hs, ← hs]
      exact dedupAdjAux_head rest (some s)
    · rw [if_neg hs]
      exact Or.inr ⟨s, rfl, hs⟩

theorem dedupAdjAux_chain : ∀ (l : List Str) (prev : Option Str),
    List.Chain' (fun a b => a ≠ b) (dedupAdjAux prev l)
  | [], _ => List.chain'_nil
  | s :: rest, prev => by
    rw [dedupAdjAux]
    by_cases hs : some s = prev
    · rw [if_pos hs]
      exact dedupAdjAux_chain rest (some s)
    · rw [if_neg hs]
      rw [List.chain'_cons']
      refine ⟨?_, dedupAdjAux_chain rest (some s)⟩
      intro b hb
      rcases dedupAdjAux_head rest (some s) with h0 | ⟨t, h0, hne⟩
      · rw [h0] at hb; simp at hb
      · rw [h0] at hb
        simp at hb
        subst hb
        intro hsb
        exact hne (by rw [hsb])

theorem dedupAdjAux_eq_self : ∀ {l : List Str} {prev : Option Str},
    List.Chain' (fun a b => a ≠ b) l →
    (∀ h, l.head? = some h → some h ≠ prev) → dedupAdjAux prev l = l
  | [], _, _, _ => rfl
  | s :: rest, prev, hchain, hhead => by
    rw [dedupAdjAux, if_neg (hhead s rfl)]
    have hh2 : ∀ x, rest.head? = some x → some x ≠ some s := by
      intro x hx hxs
      cases rest with
      | nil => simp at hx
      | cons t ts =>
        rw [List.head?_cons] at hx
        injection hx with hx
        injection hxs with hxs
        exact (List.chain'_cons.mp hchain).1 (hx.trans hxs).symm
    have hct : List.Chain' (fun a b => a ≠ b) rest := hchain.tail
    rw [dedupAdjAux_eq_self hct hh2]

theorem filterMap_id_of {α : Type} {f : α → Option α} :
    ∀ {l : List α}, (∀ a ∈ l, f a = some a) → l.filterMap f = l
  | [], _ => rfl
  | a :: as, h => by
    rw [List.filterMap_cons, h a (List.mem_cons_self a as),
      filterMap_id_of (fun x hx => h x (List.mem_cons_of_mem a hx))]

/-- Every element of a `_clean_lines` result is a non-empty fixed point of
`_normalize_whitespace`. -/
theorem mem_clean_lines {lines : List (Option Str)} {t : Str}
    (h : t ∈ _clean_lines lines) :
    _normalize_whitespace t = t ∧ t.isEmpty = false := by
  rw [_clean_lines, dedupAdj] at h
  have h2 := dedupAdjAux_mem h
  rcases List.mem_filterMap.mp h2 with ⟨a, _, ha⟩
  cases a with
  | none => simp at ha
  | some s =>
    simp only at ha
    by_cases he : (_normalize_whitespace s).isEmpty
    · rw [if_pos he] at ha; exact absurd ha (by simp)
    · rw [if_neg he] at ha
      have ht : t = _normalize_whitespace s := by
        have := Option.some.inj ha
        exact this.symm
      rw [Bool.not_eq_true] at he
      rw [ht]
      exact ⟨normalize_idem s, he⟩

theorem clean_lines_chain (lines : List (Option Str)) :
    List.Chain' (fun a b => a ≠ b) (_clean_lines lines) :=
  dedupAdjAux_chain _ none

/-- Re-cleaning a cleaned list is the identity (`_clean_lines` is idempotent
modulo the `None`-entry wrapping of its argument). -/
theorem clean_lines_idem (lines : List (Option Str)) :
    cleanStrs (_clean_lines lines) = _clean_lines lines := by
  rw [cleanStrs]
  conv_lhs => rw [_clean_lines]
  rw [List.filterMap_map]
  rw [show ((fun x : Option Str =>
      match x with
      | none => none
      | some s =>
        let t := _normalize_whitespace s
        if t.isEmpty then none else some t) ∘ some) =
    (fun s : Str =>
      let t := _normalize_whitespace s
      if t.isEmpty then none else some t) from rfl]
  rw [filterMap_id_of (fun a ha => by
    obtain ⟨hfix, hne⟩ := mem_clean_lines ha
    simp only [hfix, hne]
    rw [if_neg (by simp [hne])])]
  rw [dedupAdj, dedupAdjAux_eq_self (clean_lines_chain lines) (by simp)]

/-! ## Helper lemmas: the orchestrator -/

theorem isEmpty_false_of_ne_nil {α : Type} {l : List α} (h : l ≠ []) :
    l.isEmpty = false := by
  cases l with
  | nil => exact absurd rfl h
  | cons a as => rfl

/-- Shape of every successful `tryBody` result: status `"ok"`, a non-empty
name, non-empty cleaned lists, and the fingerprint of exactly those three
fields. -/
theorem tryBody_ok {r : Response} {rec : RecipeRecord}
    (h : tryBody r = Except.ok rec) :
    rec.extract_status = str "ok" ∧
    (∃ s, rec.name = some s ∧ s.isEmpty = false) ∧
    rec.ingredients_raw.isEmpty = false ∧
    rec.instructions_raw.isEmpty = false ∧
    rec.content_fingerprint =
      _fingerprint (rec.name.getD []) rec.ingredients_raw rec.instructions_raw ∧
    rec.extract_error = none ∧
    rec.ingredients_raw = cleanStrs (chooseResult r).ingredients_raw ∧
    rec.instructions_raw = cleanStrs (chooseResult r).instructions_raw := by
  rw [tryBody] at h
  split at h
  next => exact absurd h (by simp)
  next s hs =>
    split at h
    next => exact absurd h (by simp)
    next h1 =>
      split at h
      next => exact absurd h (by simp)
      next h2 =>
        split at h
        next => exact absurd h (by simp)
        next h3 =>
          injection h with h
          rw [Bool.not_eq_true] at h1 h2 h3
          subst h
          exact ⟨rfl, ⟨s, rfl, h1⟩, h2, h3, rfl, rfl, rfl, rfl⟩

/-- Every failing `tryBody` turns into a `failRecord`, and conversely the
yielded record is the `tryBody` result when that succeeds. -/
theorem parse_recipe_cases (r : Response) :
    (∃ rec, tryBody r = Except.ok rec ∧ parse_recipe r = rec) ∨
    (∃ e, tryBody r = Except.error e ∧ parse_recipe r = failRecord r e) := by
  cases h : tryBody r with
  | ok rec => exact Or.inl ⟨rec, rfl, by rw [parse_recipe, h]⟩
  | error e => exact Or.inr ⟨e, rfl, by rw [parse_recipe, h]⟩

theorem str_fail_ne_ok : str "fail" ≠ str "ok" := by decide

/-- When the cleaned ingredient or instruction list of the chosen result is
empty, `tryBody` raises (some) validation error. -/
theorem tryBody_error_of_empty {r : Response}
    (h : (cleanStrs (chooseResult r).ingredients_raw).isEmpty = true ∨
         (cleanStrs (chooseResult r).instructions_raw).isEmpty = true) :
    ∃ e, tryBody r = Except.error e := by
  cases htb : tryBody r with
  | error e => exact ⟨e, rfl⟩
  | ok rec =>
    obtain ⟨-, -, hi, hins, -, -, hieq, hinseq⟩ := tryBody_ok htb
    rcases h with h | h
    · rw [← hieq] at h
      rw [hi] at h
      exact absurd h (by simp)
    · rw [← hinseq] at h
      rw [hins] at h
      exact absurd h (by simp)

/-! ## Claim theorems -/

/-- C4: `_clean_lines` drops `None` and empty-after-normalization entries and
removes only *consecutive* duplicate lines, preserving non-adjacent repeats
in order; in particular on `["a", "a", "", "b", "b", "a"]` it returns
`["a", "b", "a"]`, and every output has no empty line and no two adjacent
equal lines. -/
theorem C4_clean_lines_consecutive_dedup :
    cleanStrs [str "a", str "a", str "", str "b", str "b", str "a"] =
      [str "a", str "b", str "a"] ∧
    (∀ l, _clean_lines (none :: l) = _clean_lines l) ∧
    (∀ l, _clean_lines (some [] :: l) = _clean_lines l) ∧
    (∀ l, (_clean_lines l).all (fun s => !s.isEmpty) = true ∧
      List.Chain' (fun a b => a ≠ b) (_clean_lines l)) := by
  refine ⟨by decide, fun l => rfl, fun l => rfl,
    fun l => ⟨?_, clean_lines_chain l⟩⟩
  rw [List.all_eq_true]
  intro s hs
  have h := (mem_clean_lines hs).2
  simp [h]

/-- C10: the spider's line cleaning is idempotent — re-cleaning a cleaned
list never changes it — so the orchestrator's re-cleaning of the lists the
extractors already cleaned (both the JSON-LD and the DOM path) leaves the
stored ingredient/instruction lists unchanged. -/
theorem C10_clean_lines_idempotent (lines : List (Option Str)) :
    cleanStrs (_clean_lines lines) = _clean_lines lines ∧
    (∀ j : Json,
      cleanStrs (_parse_from_jsonld j).ingredients_raw =
        (_parse_from_jsonld j).ingredients_raw ∧
      cleanStrs (_parse_from_jsonld j).instructions_raw =
        (_parse_from_jsonld j).instructions_raw) ∧
    (∀ r : Response,
      cleanStrs (_parse_from_dom r).ingredients_raw =
        (_parse_from_dom r).ingredients_raw ∧
      cleanStrs (_parse_from_dom r).instructions_raw =
        (_parse_from_dom r).instructions_raw) := by
  refine ⟨clean_lines_idem lines, fun j => ⟨?_, ?_⟩, fun r => ⟨?_, ?_⟩⟩ <;>
    simp only [_parse_from_jsonld, _parse_from_dom] <;>
    exact clean_lines_idem _

/-- C2 (amended): the fingerprint the orchestrator uses (`_fingerprint` of
the spider) is deterministic and returns equal digests whenever the three
components agree after per-line `strip().lower()`; it does **not** fold
diacritics or collapse interior whitespace (see the counterexample). -/
theorem C2_fingerprint_strip_lower_congr (n1 n2 : Str) (i1 i2 s1 s2 : List Str)
    (hn : stripLower n1 = stripLower n2)
    (hi : i1.map stripLower = i2.map stripLower)
    (hs : s1.map stripLower = s2.map stripLower) :
    _fingerprint n1 i1 s1 = _fingerprint n2 i2 s2 := by
  rw [_fingerprint, _fingerprint, fingerprintPayload, fingerprintPayload,
    hn, hi, hs]

/-- C2 witness: case and edge-whitespace variants of the same content give
the identical digest. -/
theorem C2_fingerprint_strip_lower_congr_witness :
    _fingerprint (str "  Pho Bo") [str " 1 Bo "] [str "NAU"] =
      _fingerprint (str "pho bo") [str "1 bo"] [str "nau"] :=
  C2_fingerprint_strip_lower_congr _ _ _ _ _ _ (by decide) (by decide) (by decide)

/-- C2 counterexample: two names that differ only in interior whitespace
(equal after whitespace collapse) hash differently, and the spec's own
diacritic example `fingerprint("Phở Bò", ["1 Bò"], ["Nấu"]) ==
fingerprint("pho bo", ["1 bo"], ["nau"])` is false for the fingerprint the
orchestrator uses. -/
theorem C2_fingerprint_counterexample :
    _fingerprint (str "a  b") [] [] ≠ _fingerprint (str "a b") [] [] ∧
    pyStrip (collapseRuns isHWS ' ' (str "a  b")) =
      pyStrip (collapseRuns isHWS ' ' (str "a b")) ∧
    _fingerprint (str "Phở Bò") [str "1 Bò"] [str "Nấu"] ≠
      _fingerprint (str "pho bo") [str "1 bo"] [str "nau"] :=
  ⟨by decide, by decide, by decide⟩

/-- C7: for every response, label list and cap, the heading-anchored section
extractor returns the first non-empty cleaned branch result — branches tried
in source order: per label, the following-list query then the
heading-sibling query — truncated to `max_items`, and the empty list when
every branch is empty; its result never exceeds `max_items` entries and it
is total (never an error). -/
theorem C7_section_by_heading_first_match (r : Response) (labels : List Str)
    (m : Nat) :
    _extract_section_list_by_heading r labels m =
      (firstNonEmptyList (headingBranchResults r labels)).take m ∧
    (_extract_section_list_by_heading r labels m).length ≤ m := by
  have key : ∀ ls : List Str, _extract_section_list_by_heading r ls m =
      (firstNonEmptyList (headingBranchResults r ls)).take m := by
    intro ls
    induction ls with
    | nil =>
      simp [_extract_section_list_by_heading, headingBranchResults,
        firstNonEmptyList]
    | cons lab rest ih =>
      have hbr : headingBranchResults r (lab :: rest) =
          cleanStrs (r.heading_query lab false) ::
            cleanStrs (r.heading_query lab true) ::
            headingBranchResults r rest := by
        simp [headingBranchResults]
      rw [_extract_section_list_by_heading, hbr]
      by_cases h1 : (cleanStrs (r.heading_query lab false)).isEmpty
      · by_cases h2 : (cleanStrs (r.heading_query lab true)).isEmpty
        · simp only [h1, h2, Bool.not_true, if_neg (by simp : ¬(false = true))]
          rw [ih, firstNonEmptyList, firstNonEmptyList,
            List.findSome?_cons, List.findSome?_cons]
          simp [h1, h2]
        · simp only [h1, Bool.not_true, if_neg (by simp : ¬(false = true))]
          rw [Bool.not_eq_true] at h2
          simp only [h2, Bool.not_false, if_pos rfl]
          rw [firstNonEmptyList, List.findSome?_cons, List.findSome?_cons]
          simp [h1, h2]
      · rw [Bool.not_eq_true] at h1
        simp only [h1, Bool.not_false, if_pos rfl]
        rw [firstNonEmptyList, List.findSome?_cons]
        simp [h1]
  refine ⟨key labels, ?_⟩
  rw [key labels]
  exact List.length_take_le m _

/-- C3: an emitted record has `extract_status = "ok"` exactly when its name
is present and non-empty and its cleaned ingredient and instruction lists
are both non-empty. -/
theorem C3_status_ok_iff_content (r : Response) :
    ((parse_recipe r).extract_status = str "ok") ↔
      (truthyS (parse_recipe r).name &&
       !(parse_recipe r).ingredients_raw.isEmpty &&
       !(parse_recipe r).instructions_raw.isEmpty) = true := by
  rcases parse_recipe_cases r with ⟨rec, htb, hpr⟩ | ⟨e, htb, hpr⟩
  · obtain ⟨hst, ⟨s, hname, hse⟩, hi, hins, -, -⟩ := tryBody_ok htb
    rw [hpr, hst, hname, hi, hins]
    simp [truthyS, hse]
  · rw [hpr]
    rw [show (failRecord r e).extract_status = str "fail" from rfl,
      show (failRecord r e).name = none from rfl]
    constructor
    · intro h
      exact absurd h str_fail_ne_ok
    · intro h
      simp [truthyS] at h

/-- C3 witness: a page whose DOM supplies a title and both lists is emitted
with status `"ok"`. -/
theorem C3_status_ok_iff_content_witness :
    (parse_recipe richDomPage).extract_status = str "ok" :=
  (C3_status_ok_iff_content richDomPage).mpr (by decide)

/-- C5 (amended): every emitted record carries a content fingerprint; on
success it is the fingerprint of the record's own (name, ingredients,
instructions), but on failure it is the fixed fingerprint of an empty name
and two empty lists — it does **not** incorporate the URL or status, so
failed attempts are not uniquely addressable (see the counterexample). -/
theorem C5_fingerprint_always_present (r : Response) :
    (parse_recipe r).content_fingerprint =
      (if (parse_recipe r).extract_status = str "ok" then
        _fingerprint ((parse_recipe r).name.getD [])
          (parse_recipe r).ingredients_raw (parse_recipe r).instructions_raw
      else _fingerprint [] [] []) := by
  rcases parse_recipe_cases r with ⟨rec, htb, hpr⟩ | ⟨e, htb, hpr⟩
  · obtain ⟨hst, -, -, -, hfp, -⟩ := tryBody_ok htb
    rw [hpr, if_pos hst]
    exact hfp
  · rw [hpr, if_neg (show ¬((failRecord r e).extract_status = str "ok") from
      fun h => str_fail_ne_ok h)]
    rfl

/-- C5 counterexample: two failing attempts at different URLs receive the
identical content fingerprint, so failure records are not uniquely
addressable by fingerprint. -/
theorem C5_failure_fingerprint_counterexample :
    (parse_recipe emptyR).content_fingerprint =
      (parse_recipe emptyR2).content_fingerprint ∧
    (parse_recipe emptyR).source_url ≠ (parse_recipe emptyR2).source_url ∧
    (parse_recipe emptyR).extract_status = str "fail" ∧
    (parse_recipe emptyR2).extract_status = str "fail" :=
  ⟨rfl, by decide, rfl, rfl⟩

/-- C9: every failure record has no name, empty lists, and the one fixed
fingerprint — the SHA-256 hex digest of the payload built from an empty
name and two empty lists (the UTF-8 bytes of `"\n\n"`) — independent of the
page, URL, or status. -/
theorem C9_failure_fingerprint_constant (r : Response)
    (h : (parse_recipe r).extract_status = str "fail") :
    (parse_recipe r).name = none ∧
    (parse_recipe r).ingredients_raw = [] ∧
    (parse_recipe r).instructions_raw = [] ∧
    (parse_recipe r).content_fingerprint =
      sha256hex (utf8Encode (str "\n\n")) := by
  rcases parse_recipe_cases r with ⟨rec, htb, hpr⟩ | ⟨e, htb, hpr⟩
  · obtain ⟨hst, -, -, -, -, -⟩ := tryBody_ok htb
    rw [hpr, hst] at h
    exact absurd h.symm str_fail_ne_ok
  · rw [hpr]
    refine ⟨rfl, rfl, rfl, ?_⟩
    have hp : fingerprintPayload [] [] [] = str "\n\n" := by decide
    exact congrArg (fun p => sha256hex (utf8Encode p)) hp

/-- C9 witness: the empty page fails and carries exactly the constant
fingerprint. -/
theorem C9_failure_fingerprint_constant_witness :
    (parse_recipe emptyR).name = none ∧
    (parse_recipe emptyR).ingredients_raw = [] ∧
    (parse_recipe emptyR).instructions_raw = [] ∧
    (parse_recipe emptyR).content_fingerprint =
      sha256hex (utf8Encode (str "\n\n")) :=
  C9_failure_fingerprint_constant emptyR (by decide)

/-- C8: `parse_recipe` yields exactly one record per response; every raised
validation error is caught and converted into data on that record (the
failure record carrying the message), and a malformed JSON-LD block is
silently skipped rather than escalated. -/
theorem C8_one_record_no_escape (r : Response) :
    (parse_recipe_items r).length = 1 ∧
    (∀ e, tryBody r = Except.error e → parse_recipe r = failRecord r e) ∧
    (∀ bs, _extract_recipe_jsonld { r with jsonld_blocks := none :: bs } =
        _extract_recipe_jsonld { r with jsonld_blocks := bs }) :=
  ⟨rfl, fun e he => by rw [parse_recipe, he], fun bs => rfl⟩

/-- C8 witness: on the empty page the raised "Missing recipe name" is
converted into the yielded failure record. -/
theorem C8_one_record_no_escape_witness :
    parse_recipe emptyR2 = failRecord emptyR2 (str "Missing recipe name") ∧
    (parse_recipe_items emptyR2).length = 1 :=
  ⟨(C8_one_record_no_escape emptyR2).2.1 (str "Missing recipe name") rfl,
   (C8_one_record_no_escape emptyR2).1⟩

/-- C6 (amended): on a response with no `<title>`, no structured data and no
DOM name, the emitted record carries the same generic status `"fail"` used
for every validation miss, with `extract_error = "Missing recipe name"`; no
distinct `BLOCKED_OR_UNEXPECTED` status exists anywhere in the code. -/
theorem C6_no_title_generic_fail (r : Response)
    (ht : r.title_text = none) (hh : r.h1_text = none)
    (hd : r.testid_title = none) (hj : _extract_recipe_jsonld r = none) :
    (parse_recipe r).extract_status = str "fail" ∧
    (parse_recipe r).extract_error = some (str "Missing recipe name") := by
  have hjr : jsonldResult r = none := by rw [jsonldResult, hj]; rfl
  have hcr : chooseResult r = _parse_from_dom r := by rw [chooseResult, hjr]
  have hft : _fallback_title r = none := by rw [_fallback_title, ht]
  have hname : (_parse_from_dom r).name = none := by
    simp only [_parse_from_dom, hh, hd, hft, orFalsy, truthyS]
    rfl
  have htb : tryBody r = Except.error (str "Missing recipe name") := by
    simp only [tryBody, hcr, hname, hft, orFalsy, truthyS]
    rfl
  rw [parse_recipe, htb]
  exact ⟨rfl, rfl⟩

/-- C6 witness: the all-empty 200 page satisfies the hypotheses and is
emitted as a generic `"fail"`. -/
theorem C6_no_title_generic_fail_witness :
    (parse_recipe emptyR).extract_status = str "fail" ∧
    (parse_recipe emptyR).extract_error = some (str "Missing recipe name") :=
  C6_no_title_generic_fail emptyR rfl rfl rfl rfl

/-- C6 counterexample: the title-less empty page is **not** given a status
distinct from the generic failure status — it gets exactly the same
`"fail"` as a titled page whose content validation misses. -/
theorem C6_blocked_status_counterexample :
    (parse_recipe emptyR2).extract_status = str "fail" ∧
    (parse_recipe emptyR2).extract_error = some (str "Missing recipe name") ∧
    (parse_recipe titledEmptyPage).extract_status = str "fail" ∧
    (parse_recipe titledEmptyPage).extract_error =
      some (str "Missing ingredients") ∧
    (parse_recipe emptyR2).extract_status =
      (parse_recipe titledEmptyPage).extract_status :=
  ⟨rfl, rfl, rfl, rfl, rfl⟩

/-- C1 (amended): the DOM fallback is taken only when structured extraction
is absent or **both** of its lists are empty.  When exactly one of the
JSON-LD lists is empty, the structured result is kept (`chooseResult` is the
JSON-LD result), validation then fails, and the emitted record has status
`"fail"` with `extract_source` left null — never the DOM value, regardless
of what the DOM would have yielded. -/
theorem C1_dom_fallback_needs_both_empty (r : Response) (res : ExtractResult)
    (hj : jsonldResult r = some res)
    (hone : res.ingredients_raw = [] ∧ res.instructions_raw ≠ [] ∨
            res.ingredients_raw ≠ [] ∧ res.instructions_raw = []) :
    chooseResult r = res ∧
    (parse_recipe r).extract_status = str "fail" ∧
    (parse_recipe r).extract_source = none ∧
    (parse_recipe r).ingredients_raw = [] ∧
    (parse_recipe r).instructions_raw = [] := by
  have hcr : chooseResult r = res := by
    rw [chooseResult, hj]
    show (if (res.ingredients_raw.isEmpty && res.instructions_raw.isEmpty) = true
        then _parse_from_dom r else res) = res
    rcases hone with ⟨h1, h2⟩ | ⟨h1, h2⟩
    · rw [h1, isEmpty_false_of_ne_nil h2]
      simp
    · rw [h2, isEmpty_false_of_ne_nil h1]
      simp
  have herr : ∃ e, tryBody r = Except.error e := by
    apply tryBody_error_of_empty
    rcases hone with ⟨h1, -⟩ | ⟨-, h2⟩
    · left
      rw [hcr, h1]
      rfl
    · right
      rw [hcr, h2]
      rfl
  obtain ⟨e, he⟩ := herr
  refine ⟨hcr, ?_, ?_, ?_, ?_⟩ <;> rw [parse_recipe, he] <;> rfl

/-- C1 witness: on the page whose JSON-LD recipe lacks ingredients but has
instructions, the structured result is kept and the attempt fails. -/
theorem C1_dom_fallback_needs_both_empty_witness :
    chooseResult pageJsonldMissingIngredients =
      _parse_from_jsonld recipeNoIngredients ∧
    (parse_recipe pageJsonldMissingIngredients).extract_status = str "fail" ∧
    (parse_recipe pageJsonldMissingIngredients).extract_source = none ∧
    (parse_recipe pageJsonldMissingIngredients).ingredients_raw = [] ∧
    (parse_recipe pageJsonldMissingIngredients).instructions_raw = [] :=
  C1_dom_fallback_needs_both_empty pageJsonldMissingIngredients
    (_parse_from_jsonld recipeNoIngredients) rfl (Or.inl ⟨rfl, by decide⟩)

/-- C1 counterexample: structured data with empty ingredients but non-empty
instructions, on a page whose DOM fallback would deliver both lists —
`parse_recipe` does **not** fall back to the DOM: the record is a failure
with `extract_source` null, not the accepted DOM value. -/
theorem C1_dom_fallback_counterexample :
    _extract_recipe_jsonld pageJsonldMissingIngredients =
      some recipeNoIngredients ∧
    (_parse_from_jsonld recipeNoIngredients).ingredients_raw = [] ∧
    (_parse_from_jsonld recipeNoIngredients).instructions_raw ≠ [] ∧
    (_parse_from_dom pageJsonldMissingIngredients).ingredients_raw ≠ [] ∧
    (_parse_from_dom pageJsonldMissingIngredients).instructions_raw ≠ [] ∧
    truthyS (_parse_from_dom pageJsonldMissingIngredients).name = true ∧
    (parse_recipe pageJsonldMissingIngredients).extract_source ≠
      some (str "dom") ∧
    (parse_recipe pageJsonldMissingIngredients).extract_status = str "fail" ∧
    (parse_recipe pageJsonldMissingIngredients).extract_error =
      some (str "Missing ingredients") :=
  ⟨rfl, rfl, by decide, by decide, by decide, by decide, by decide, rfl, rfl⟩

end CookpadIngest
